import Mathlib

/-!
# go-argon2-demo: a shallow embedding of `main.go`

The program registers users in an in-memory table and authenticates them.
A password is concatenated with a process-wide pepper, hashed with Argon2id
under a fresh 16-byte salt, and the digest is compared in constant time.

Modelling choices.

* A Go `string` and a Go `[]byte` are both finite byte sequences: `List Byte`
  with `Byte = Fin 256`. The conversion `[]byte(password)` is the identity.
* The package-level variables `pepper` and `db` are the fields of `Globals`,
  passed explicitly. `RegisterUser` returns the new globals next to its error.
* `argon2.IDKey` (golang.org/x/crypto) is not code of this repository. It is a
  parameter `idKey : KDF` of every definition that reaches it: a function of
  its six arguments and nothing else.
* `rand.Read` (crypto/rand) is the only source of nondeterminism. What one
  call did is a `ReadOutcome`: the bytes it wrote and the error it returned.
  `RegisterUser` takes the outcome of the one read it performs.
* `subtle.ConstantTimeCompare` and `subtle.ConstantTimeByteEq` (crypto/subtle)
  are transcribed from the Go standard library, with `uint8` and `uint32`
  arithmetic as `Nat` arithmetic modulo `2^8` and `2^32`.
* `map[string]User` is an association list: `mapGet` is `db[k]` with its `ok`
  flag, `mapSet` is `db[k] = v` (replace the entry of `k`, or add one), and
  `len(db)` is the length of the list. Every table built from `[]` by `mapSet`
  has pairwise distinct keys.
* The lines printed with `fmt.Println` are not modelled; no definition below
  depends on them.
-/

namespace Argon2Demo

/-! ## Data model -/

/-- A Go `byte`. -/
abbrev Byte := Fin 256

/-- A Go `string`: an immutable byte sequence. -/
abbrev GoString := List Byte

/-- A Go `error` value: a plain error, or one made by `fmt.Errorf` with `%w`
around a cause. -/
inductive GoError where
  | plain (msg : String)
  | wrap (msg : String) (cause : GoError)
  deriving DecidableEq, Repr

/-- The signature of `argon2.IDKey(password, salt, time, memory, threads, keyLen)`. -/
abbrev KDF := List Byte → List Byte → Nat → Nat → Nat → Nat → List Byte

/-- Go source: `var pepper = "secret-pepper"`, as bytes. -/
def pepper : GoString :=
  [115, 101, 99, 114, 101, 116, 45, 112, 101, 112, 112, 101, 114]

/-- Go source: `argon2Time = 1`. -/
def argon2Time : Nat := 1

/-- Go source: `argon2Memory = 64 * 1024`. -/
def argon2Memory : Nat := 64 * 1024

/-- Go source: `argon2Threads = 4`. -/
def argon2Threads : Nat := 4

/-- Go source: `argon2KeyLen = 32`. -/
def argon2KeyLen : Nat := 32

/-- Go source: `saltLength = 16`. -/
def saltLength : Nat := 16

/-- Go source: `type User struct`. -/
structure User where
  ID : Nat
  Username : GoString
  PasswordHash : List Byte
  Salt : List Byte
  deriving DecidableEq, Repr

/-- Go source: the type of `db`, `map[string]User`. -/
abbrev Db := List (GoString × User)

/-- Index expression `user, ok := db[k]`; `none` stands for `ok == false`. -/
def mapGet : Db → GoString → Option User
  | [], _ => none
  | (k', v) :: rest, k => if k' = k then some v else mapGet rest k

/-- Assignment `db[k] = v`: the entry of `k` is replaced, or a new one added. -/
def mapSet : Db → GoString → User → Db
  | [], k, v => [(k, v)]
  | (k', v') :: rest, k, v =>
    if k' = k then (k, v) :: rest else (k', v') :: mapSet rest k v

/-- The package-level variables of the program. -/
structure Globals where
  pepper : GoString
  db : Db
  deriving DecidableEq, Repr

/-- The globals at program start: `pepper = "secret-pepper"`,
`db = make(map[string]User)`. -/
def initGlobals : Globals := ⟨pepper, []⟩

/-! ## Standard-library pieces the program calls -/

/-- The builtin `make([]byte, n)`: `n` zero bytes. -/
def makeBytes (n : Nat) : List Byte := List.replicate n 0

/-- What a reader does to the buffer it is handed: it overwrites a leading
segment, never past the end of the buffer, and the length of the buffer stays
what it was. -/
def writeInto (buf written : List Byte) : List Byte :=
  written.take buf.length ++ buf.drop written.length

/-- What one call of `rand.Read` did: the bytes it wrote, the error it returned. -/
structure ReadOutcome where
  written : List Byte
  err : Option GoError
  deriving DecidableEq, Repr

/-- Go standard library: `subtle.ConstantTimeByteEq`,
`int((uint32(x^y) - 1) >> 31)`. -/
def ConstantTimeByteEq (x y : Nat) : Nat :=
  (((x ^^^ y) % 2 ^ 32 + 2 ^ 32 - 1) % 2 ^ 32) >>> 31

/-- The loop of `subtle.ConstantTimeCompare`: `v |= x[i] ^ y[i]` over a `uint8`
accumulator, for slices of equal length. -/
def xorFold : Nat → List Byte → List Byte → Nat
  | v, a :: x, b :: y => xorFold ((v ||| (a.val ^^^ b.val)) % 2 ^ 8) x y
  | v, _, _ => v

/-- Go standard library: `subtle.ConstantTimeCompare`. -/
def ConstantTimeCompare (x y : List Byte) : Nat :=
  if x.length ≠ y.length then 0
  else ConstantTimeByteEq (xorFold 0 x y) 0

/-! ## The program -/

/-- Go source: `generateSalt`. The first component is the returned slice
(`none` is the nil slice), the second the returned error (`none` is nil). -/
def generateSalt (r : ReadOutcome) : Option (List Byte) × Option GoError :=
  let salt := writeInto (makeBytes saltLength) r.written
  match r.err with
  | some err => (none, some err)
  | none => (some salt, none)

/-- Go source: `hashPasswordArgon2`. -/
def hashPasswordArgon2 (idKey : KDF) (password : GoString) (salt : List Byte) : List Byte :=
  idKey password salt argon2Time argon2Memory argon2Threads argon2KeyLen

/-- Go source: `RegisterUser`. Returns the globals after the call and the
returned error. A nil salt slice holds no bytes. -/
def RegisterUser (idKey : KDF) (g : Globals) (r : ReadOutcome)
    (username password : GoString) : Globals × Option GoError :=
  match generateSalt r with
  | (_, some err) => (g, some (GoError.wrap "failed to generate salt: " err))
  | (saltSlice, none) =>
    let salt := saltSlice.getD []
    let passwordWithPepper := password ++ g.pepper
    let hashedPassword := hashPasswordArgon2 idKey passwordWithPepper salt
    let user : User :=
      { ID := g.db.length + 1
        Username := username
        PasswordHash := hashedPassword
        Salt := salt }
    ({ g with db := mapSet g.db username user }, none)

/-- Go source: `AuthenticateUser`. -/
def AuthenticateUser (idKey : KDF) (g : Globals) (username password : GoString) : Bool :=
  match mapGet g.db username with
  | none => false
  | some user =>
    let passwordWithPepper := password ++ g.pepper
    let hashedPassword := hashPasswordArgon2 idKey passwordWithPepper user.Salt
    if ConstantTimeCompare user.PasswordHash hashedPassword = 1 then true else false

/-- One call from outside: a registration, with what its read of the random
source did, or an authentication. -/
inductive Call where
  | register (r : ReadOutcome) (username password : GoString)
  | authenticate (username password : GoString)
  deriving DecidableEq, Repr

/-- The globals after one call. `AuthenticateUser` assigns to no variable. -/
def step (idKey : KDF) (g : Globals) : Call → Globals
  | Call.register r username password => (RegisterUser idKey g r username password).1
  | Call.authenticate _ _ => g

/-- The globals after a sequence of calls, first call first. -/
def run (idKey : KDF) (g : Globals) (calls : List Call) : Globals :=
  calls.foldl (step idKey) g

/-- A stand-in key-derivation function for evaluating the program on concrete
inputs: the first `keyLen` bytes of password, salt and zero padding. -/
def sampleKDF : KDF := fun password salt _ _ _ keyLen =>
  (password ++ salt ++ List.replicate keyLen 0).take keyLen

/-- A read of the random source that filled the buffer with sixteen bytes `b`. -/
def okRead (b : Byte) : ReadOutcome := ⟨List.replicate 16 b, none⟩

/-- A read of the random source that failed. -/
def failedRead : ReadOutcome := ⟨[], some (GoError.plain "entropy source unavailable")⟩

/-- The user name `a`. -/
def nameA : GoString := [97]

/-- The user name `b`. -/
def nameB : GoString := [98]

/-- The user name `c`. -/
def nameC : GoString := [99]

/-- The password `pw`. -/
def secret : GoString := [112, 119]

/-- The password `no`. -/
def wrong : GoString := [110, 111]

/-- A session: `a` registers, a wrong password is tried, a registration of `b`
fails for lack of entropy, then `b` registers. -/
def sampleCalls : List Call :=
  [Call.register (okRead 7) nameA secret, Call.authenticate nameA wrong,
    Call.register failedRead nameB secret, Call.register (okRead 9) nameB wrong]

/-- The globals after `a` registered once at program start. -/
def afterFirstRegistration : Globals :=
  (RegisterUser sampleKDF initGlobals (okRead 7) nameA secret).1

/-- The record `afterFirstRegistration` holds for `a`. -/
def firstRecord : User :=
  { ID := 1
    Username := nameA
    PasswordHash := hashPasswordArgon2 sampleKDF (secret ++ pepper) (List.replicate 16 7)
    Salt := List.replicate 16 7 }

/-- Four registrations whose reads all succeed: `a`, `b`, `a` again, `c`. -/
def reRegistrationCalls : List Call :=
  [Call.register (okRead 1) nameA secret, Call.register (okRead 2) nameB secret,
    Call.register (okRead 3) nameA secret, Call.register (okRead 4) nameC secret]

/-- The calls of a list of registrations, each given as the outcome of its read,
the username and the password. -/
def registerCalls (regs : List (ReadOutcome × GoString × GoString)) : List Call :=
  regs.map fun x => Call.register x.1 x.2.1 x.2.2

/-! ## Facts about the standard-library pieces -/

theorem lor_eq_zero_iff (v w : Nat) : v ||| w = 0 ↔ v = 0 ∧ w = 0 := by
  constructor
  · intro h
    have key : ∀ i, (v.testBit i || w.testBit i) = false := by
      intro i
      rw [← Nat.testBit_or, h]; simp
    constructor
    · apply Nat.eq_of_testBit_eq
      intro i
      have := key i
      simp at this ⊢
      exact this.1
    · apply Nat.eq_of_testBit_eq
      intro i
      have := key i
      simp at this ⊢
      exact this.2
  · rintro ⟨rfl, rfl⟩
    rfl

theorem ConstantTimeByteEq_zero (v : Nat) (hv : v < 2 ^ 8) :
    ConstantTimeByteEq v 0 = 1 ↔ v = 0 := by
  unfold ConstantTimeByteEq
  rw [Nat.xor_zero, Nat.shiftRight_eq_div_pow]
  norm_num at hv ⊢
  omega

theorem xorFold_lt (v : Nat) (x y : List Byte) (hv : v < 2 ^ 8) : xorFold v x y < 2 ^ 8 := by
  induction x generalizing v y with
  | nil => simpa [xorFold] using hv
  | cons a x ih =>
    cases y with
    | nil => simpa [xorFold] using hv
    | cons b y =>
      simp only [xorFold]
      exact ih _ _ (Nat.mod_lt _ (by norm_num))

theorem xorFold_eq_zero (v : Nat) (x y : List Byte) (hv : v < 2 ^ 8)
    (hlen : x.length = y.length) : xorFold v x y = 0 ↔ v = 0 ∧ x = y := by
  induction x generalizing v y with
  | nil =>
    cases y with
    | nil => simp [xorFold]
    | cons b y => simp at hlen
  | cons a x ih =>
    cases y with
    | nil => simp at hlen
    | cons b y =>
      have hab : a.val ^^^ b.val < 2 ^ 8 := Nat.xor_lt_two_pow a.isLt b.isLt
      have hor : v ||| (a.val ^^^ b.val) < 2 ^ 8 := Nat.or_lt_two_pow hv hab
      have hmod : (v ||| (a.val ^^^ b.val)) % 2 ^ 8 < 2 ^ 8 := Nat.mod_lt _ (by norm_num)
      simp only [xorFold]
      rw [ih _ _ hmod (by simpa using hlen),
        Nat.mod_eq_of_lt hor, lor_eq_zero_iff, Nat.xor_eq_zero, List.cons.injEq, Fin.val_inj]
      tauto

/-- `subtle.ConstantTimeCompare` returns 1 exactly on equal slices. -/
theorem ConstantTimeCompare_eq_one (x y : List Byte) :
    ConstantTimeCompare x y = 1 ↔ x = y := by
  unfold ConstantTimeCompare
  by_cases hlen : x.length = y.length
  · rw [if_neg (not_not.mpr hlen), ConstantTimeByteEq_zero _ (xorFold_lt 0 x y (by norm_num)),
      xorFold_eq_zero 0 x y (by norm_num) hlen]
    simp
  · rw [if_pos hlen]
    constructor
    · intro h; exact absurd h (by norm_num)
    · intro h; exact absurd (congrArg List.length h) hlen

theorem writeInto_length (buf written : List Byte) :
    (writeInto buf written).length = buf.length := by
  simp only [writeInto, List.length_append, List.length_take, List.length_drop]
  omega

theorem mapGet_mapSet_self (db : Db) (k : GoString) (v : User) :
    mapGet (mapSet db k v) k = some v := by
  induction db with
  | nil => simp [mapSet, mapGet]
  | cons e rest ih =>
    obtain ⟨k', v'⟩ := e
    by_cases h : k' = k
    · simp [mapSet, mapGet, h]
    · simp [mapSet, mapGet, h, ih]

/-! ## Facts about the program -/

theorem generateSalt_failed (r : ReadOutcome) (e : GoError) (h : r.err = some e) :
    generateSalt r = (none, some e) := by
  simp [generateSalt, h]

theorem generateSalt_ok (r : ReadOutcome) (h : r.err = none) :
    generateSalt r = (some (writeInto (makeBytes saltLength) r.written), none) := by
  simp [generateSalt, h]

theorem RegisterUser_failed (idKey : KDF) (g : Globals) (r : ReadOutcome)
    (username password : GoString) (e : GoError) (h : r.err = some e) :
    RegisterUser idKey g r username password
      = (g, some (GoError.wrap "failed to generate salt: " e)) := by
  simp [RegisterUser, generateSalt_failed r e h]

theorem RegisterUser_ok (idKey : KDF) (g : Globals) (r : ReadOutcome)
    (username password : GoString) (h : r.err = none) :
    RegisterUser idKey g r username password
      = (⟨g.pepper, mapSet g.db username
            ⟨g.db.length + 1, username,
              hashPasswordArgon2 idKey (password ++ g.pepper)
                (writeInto (makeBytes saltLength) r.written),
              writeInto (makeBytes saltLength) r.written⟩⟩, none) := by
  simp [RegisterUser, generateSalt_ok r h]

theorem RegisterUser_error_iff (idKey : KDF) (g : Globals) (r : ReadOutcome)
    (username password : GoString) :
    (RegisterUser idKey g r username password).2 = none ↔ r.err = none := by
  cases h : r.err with
  | none => simp [RegisterUser_ok idKey g r username password h]
  | some e => simp [RegisterUser_failed idKey g r username password e h]

theorem AuthenticateUser_eq_true (idKey : KDF) (g : Globals) (username password : GoString) :
    AuthenticateUser idKey g username password = true ↔
      ∃ user, mapGet g.db username = some user ∧
        user.PasswordHash = hashPasswordArgon2 idKey (password ++ g.pepper) user.Salt := by
  unfold AuthenticateUser
  cases h : mapGet g.db username with
  | none => simp
  | some user => simp [ConstantTimeCompare_eq_one]

theorem RegisterUser_pepper (idKey : KDF) (g : Globals) (r : ReadOutcome)
    (username password : GoString) :
    (RegisterUser idKey g r username password).1.pepper = g.pepper := by
  cases h : r.err with
  | none => simp [RegisterUser_ok idKey g r username password h]
  | some e => simp [RegisterUser_failed idKey g r username password e h]

theorem step_pepper (idKey : KDF) (g : Globals) (c : Call) :
    (step idKey g c).pepper = g.pepper := by
  cases c with
  | register r username password => exact RegisterUser_pepper idKey g r username password
  | authenticate username password => rfl

theorem run_pepper (idKey : KDF) (g : Globals) (calls : List Call) :
    (run idKey g calls).pepper = g.pepper := by
  induction calls generalizing g with
  | nil => rfl
  | cons c rest ih =>
    show (run idKey (step idKey g c) rest).pepper = g.pepper
    rw [ih, step_pepper]

theorem mem_mapSet (db : Db) (k : GoString) (v : User) (e : GoString × User)
    (h : e ∈ mapSet db k v) : e = (k, v) ∨ e ∈ db := by
  induction db with
  | nil => simpa [mapSet] using h
  | cons d rest ih =>
    obtain ⟨k', v'⟩ := d
    by_cases hk : k' = k
    · simp only [mapSet, if_pos hk, List.mem_cons] at h
      rcases h with h | h
      · exact Or.inl h
      · exact Or.inr (List.mem_cons_of_mem _ h)
    · simp only [mapSet, if_neg hk, List.mem_cons] at h
      rcases h with h | h
      · exact Or.inr (by rw [h]; exact List.mem_cons_self _ _)
      · rcases ih h with h' | h'
        · exact Or.inl h'
        · exact Or.inr (List.mem_cons_of_mem _ h')

/-- The stored lengths the claims speak of: salts of 16 bytes, digests of 32. -/
theorem step_lengths (idKey : KDF)
    (hlen : ∀ p s t m th k, (idKey p s t m th k).length = k) (g : Globals) (c : Call)
    (hg : ∀ e ∈ g.db, e.2.Salt.length = 16 ∧ e.2.PasswordHash.length = 32) :
    ∀ e ∈ (step idKey g c).db, e.2.Salt.length = 16 ∧ e.2.PasswordHash.length = 32 := by
  cases c with
  | authenticate username password => exact hg
  | register r username password =>
    cases hr : r.err with
    | some err =>
      simp only [step, RegisterUser_failed idKey g r username password err hr]
      exact hg
    | none =>
      simp only [step, RegisterUser_ok idKey g r username password hr]
      intro e he
      rcases mem_mapSet _ _ _ _ he with h | h
      · subst h
        refine ⟨?_, ?_⟩
        · simp [writeInto_length, makeBytes, saltLength]
        · simp [hashPasswordArgon2, hlen, argon2KeyLen]
      · exact hg e h

theorem run_lengths (idKey : KDF)
    (hlen : ∀ p s t m th k, (idKey p s t m th k).length = k) (g : Globals)
    (calls : List Call)
    (hg : ∀ e ∈ g.db, e.2.Salt.length = 16 ∧ e.2.PasswordHash.length = 32) :
    ∀ e ∈ (run idKey g calls).db, e.2.Salt.length = 16 ∧ e.2.PasswordHash.length = 32 := by
  induction calls generalizing g with
  | nil => exact hg
  | cons c rest ih => exact ih (step idKey g c) (step_lengths idKey hlen g c hg)

theorem sampleKDF_length (p s : List Byte) (t m th k : Nat) :
    (sampleKDF p s t m th k).length = k := by
  simp only [sampleKDF, List.length_take, List.length_append, List.length_replicate]
  omega

/-- Every key-derivation function with digests of `keyLen` bytes maps two
different passwords to one digest: there are more passwords of 33 bytes than
digests of 32. -/
theorem kdf_collision (idKey : KDF)
    (hlen : ∀ p s t m th k, (idKey p s t m th k).length = k)
    (pep : GoString) (salt : List Byte) :
    ∃ password password2 : GoString, password2 ≠ password ∧
      hashPasswordArgon2 idKey (password2 ++ pep) salt
        = hashPasswordArgon2 idKey (password ++ pep) salt := by
  let f : Mathlib.Vector Byte 33 → Mathlib.Vector Byte 32 := fun v =>
    ⟨hashPasswordArgon2 idKey (v.toList ++ pep) salt, hlen _ _ _ _ _ _⟩
  have hcard : Fintype.card (Mathlib.Vector Byte 32) < Fintype.card (Mathlib.Vector Byte 33) := by
    rw [card_vector, card_vector, Fintype.card_fin]
    exact Nat.pow_lt_pow_right (by norm_num) (by norm_num)
  obtain ⟨v, w, hne, heq⟩ := Fintype.exists_ne_map_eq_of_card_lt f hcard
  refine ⟨w.toList, v.toList, ?_, ?_⟩
  · intro h
    exact hne (Subtype.ext h)
  · exact congrArg Subtype.val heq

/-- A password different from the one of the stored record is accepted exactly
when `argon2.IDKey` maps the two different inputs password2 + pepper and
password + pepper, under the stored salt and the program's four parameters, to
one digest. -/
theorem wrong_password_accepted_iff_collision (idKey : KDF) (g : Globals)
    (username password password2 : GoString) (user : User)
    (hne : password2 ≠ password)
    (hget : mapGet g.db username = some user)
    (hstored : user.PasswordHash
      = hashPasswordArgon2 idKey (password ++ g.pepper) user.Salt) :
    AuthenticateUser idKey g username password2 = true ↔
      (password2 ++ g.pepper ≠ password ++ g.pepper ∧
        idKey (password2 ++ g.pepper) user.Salt 1 65536 4 32
          = idKey (password ++ g.pepper) user.Salt 1 65536 4 32) := by
  have hinputs : password2 ++ g.pepper ≠ password ++ g.pepper :=
    fun h => hne (List.append_cancel_right h)
  rw [AuthenticateUser_eq_true]
  constructor
  · rintro ⟨user', hget', heq⟩
    rw [hget] at hget'
    cases hget'
    rw [hstored] at heq
    exact ⟨hinputs, heq.symm⟩
  · rintro ⟨_, heq⟩
    exact ⟨user, hget, by rw [hstored]; exact heq.symm⟩

theorem mapSet_of_absent (db : Db) (k : GoString) (v : User)
    (h : k ∉ db.map Prod.fst) : mapSet db k v = db ++ [(k, v)] := by
  induction db with
  | nil => rfl
  | cons d rest ih =>
    obtain ⟨k', v'⟩ := d
    simp only [List.map_cons, List.mem_cons, not_or] at h
    have hk : ¬ k' = k := fun e => h.1 e.symm
    simp [mapSet, hk, ih h.2]

/-- While no username is registered twice, the table lists the usernames in
the order of registration and their IDs are 1, 2, 3, ... -/
theorem registerCalls_table (idKey : KDF) (pep : GoString)
    (regs : List (ReadOutcome × GoString × GoString))
    (hok : ∀ x ∈ regs, x.1.err = none)
    (hnodup : (regs.map fun x => x.2.1).Nodup) :
    (run idKey ⟨pep, []⟩ (registerCalls regs)).db.map Prod.fst = regs.map (fun x => x.2.1) ∧
      (run idKey ⟨pep, []⟩ (registerCalls regs)).db.map (fun e => e.2.ID)
        = List.range' 1 regs.length := by
  induction regs using List.reverseRecOn with
  | nil => exact ⟨rfl, rfl⟩
  | append_singleton regs x ih =>
    have hok' : ∀ y ∈ regs, y.1.err = none := fun y hy => hok y (List.mem_append_left _ hy)
    rw [List.map_append, List.nodup_append] at hnodup
    obtain ⟨hkeys, hids⟩ := ih hok' hnodup.1
    have hx : x.1.err = none := hok x (by simp)
    have hfresh : x.2.1 ∉ (run idKey ⟨pep, []⟩ (registerCalls regs)).db.map Prod.fst := by
      rw [hkeys]
      intro hmem
      exact hnodup.2.2 hmem (by simp)
    have hlen : (run idKey ⟨pep, []⟩ (registerCalls regs)).db.length = regs.length := by
      have := congrArg List.length hkeys
      simpa using this
    have hrun : run idKey ⟨pep, []⟩ (registerCalls (regs ++ [x]))
        = (RegisterUser idKey (run idKey ⟨pep, []⟩ (registerCalls regs)) x.1 x.2.1 x.2.2).1 := by
      simp [run, registerCalls, List.foldl_append, step]
    rw [hrun, RegisterUser_ok idKey _ x.1 x.2.1 x.2.2 hx]
    simp only [mapSet_of_absent _ _ _ hfresh, List.map_append, List.map_cons, List.map_nil,
      List.length_append, List.length_singleton, List.range'_concat, hkeys, hids, hlen]
    exact ⟨trivial, by simp [Nat.add_comm]⟩

/-- The defect behind the ID collision bites only on a re-registration: while no
username is registered twice, records under different usernames have different
IDs. -/
theorem ids_unique_without_reRegistration (idKey : KDF) (pep : GoString)
    (regs : List (ReadOutcome × GoString × GoString))
    (hok : ∀ x ∈ regs, x.1.err = none)
    (hnodup : (regs.map fun x => x.2.1).Nodup) :
    ∀ e1 ∈ (run idKey ⟨pep, []⟩ (registerCalls regs)).db,
      ∀ e2 ∈ (run idKey ⟨pep, []⟩ (registerCalls regs)).db,
        e1.1 ≠ e2.1 → e1.2.ID ≠ e2.2.ID := by
  intro e1 h1 e2 h2 hne hid
  have hids := (registerCalls_table idKey pep regs hok hnodup).2
  have hnd : ((run idKey ⟨pep, []⟩ (registerCalls regs)).db.map (fun e => e.2.ID)).Nodup := by
    rw [hids]
    exact List.nodup_range' 1 regs.length
  exact hne (congrArg Prod.fst (List.inj_on_of_nodup_map hnd h1 h2 hid))

/-! ## The claims -/

/-- C1: for every state of the globals, username and password, when
`RegisterUser(username, password)` returns a nil error, `AuthenticateUser(username,
password)` on the globals it leaves (same pepper, updated db) returns true. -/
theorem register_then_authenticate (idKey : KDF) (g : Globals) (r : ReadOutcome)
    (username password : GoString)
    (h : (RegisterUser idKey g r username password).2 = none) :
    AuthenticateUser idKey (RegisterUser idKey g r username password).1 username password
      = true := by
  have hr : r.err = none := (RegisterUser_error_iff idKey g r username password).mp h
  rw [RegisterUser_ok idKey g r username password hr, AuthenticateUser_eq_true]
  exact ⟨_, mapGet_mapSet_self _ _ _, rfl⟩

theorem register_then_authenticate_witness :
    (RegisterUser sampleKDF initGlobals (okRead 7) nameA secret).2 = none ∧
      AuthenticateUser sampleKDF (RegisterUser sampleKDF initGlobals (okRead 7) nameA secret).1
        nameA secret = true :=
  ⟨by decide, register_then_authenticate sampleKDF initGlobals (okRead 7) nameA secret (by decide)⟩

/-- C2: `AuthenticateUser(username, password)` returns true exactly when db holds a
record for username whose stored PasswordHash has the same length and the same
bytes as `hashPasswordArgon2(password + pepper, stored Salt)`; it returns false in
every other case, in particular when username is not in db. -/
theorem AuthenticateUser_true_iff (idKey : KDF) (g : Globals) (username password : GoString) :
    (AuthenticateUser idKey g username password = true ↔
      ∃ user, mapGet g.db username = some user ∧
        user.PasswordHash.length
          = (hashPasswordArgon2 idKey (password ++ g.pepper) user.Salt).length ∧
        ∀ i : Nat, user.PasswordHash[i]?
          = (hashPasswordArgon2 idKey (password ++ g.pepper) user.Salt)[i]?) ∧
    (AuthenticateUser idKey g username password = false ↔
      ¬ ∃ user, mapGet g.db username = some user ∧
        user.PasswordHash = hashPasswordArgon2 idKey (password ++ g.pepper) user.Salt) ∧
    (mapGet g.db username = none → AuthenticateUser idKey g username password = false) := by
  refine ⟨?_, ?_, ?_⟩
  · rw [AuthenticateUser_eq_true]
    constructor
    · rintro ⟨user, hget, heq⟩
      exact ⟨user, hget, by rw [← heq], fun i => by rw [← heq]⟩
    · rintro ⟨user, hget, _, hbytes⟩
      exact ⟨user, hget, List.ext_getElem? hbytes⟩
  · rw [← AuthenticateUser_eq_true]
    cases AuthenticateUser idKey g username password <;> simp
  · intro hnone
    simp [AuthenticateUser, hnone]

/-- C4: for every username and password, after a `RegisterUser` that returned a nil
error, the record stored under username has a PasswordHash equal to `argon2.IDKey`
applied to the bytes of password followed by pepper, the stored Salt, time 1,
memory 65536 KiB, 4 threads and key length 32. -/
theorem registered_hash_is_idKey (idKey : KDF) (g : Globals) (r : ReadOutcome)
    (username password : GoString)
    (h : (RegisterUser idKey g r username password).2 = none) :
    ∃ user, mapGet (RegisterUser idKey g r username password).1.db username = some user ∧
      user.PasswordHash = idKey (password ++ g.pepper) user.Salt 1 65536 4 32 := by
  have hr : r.err = none := (RegisterUser_error_iff idKey g r username password).mp h
  rw [RegisterUser_ok idKey g r username password hr]
  exact ⟨_, mapGet_mapSet_self _ _ _, rfl⟩

theorem registered_hash_is_idKey_witness :
    (RegisterUser sampleKDF initGlobals (okRead 7) nameA secret).2 = none ∧
      ∃ user, mapGet (RegisterUser sampleKDF initGlobals (okRead 7) nameA secret).1.db nameA
          = some user ∧
        user.PasswordHash = sampleKDF (secret ++ initGlobals.pepper) user.Salt 1 65536 4 32 :=
  ⟨by decide, registered_hash_is_idKey sampleKDF initGlobals (okRead 7) nameA secret (by decide)⟩

/-- C6: `generateSalt` returns the error of the read and a nil salt when the read
from the random source fails, it returns an error in no other case, and when the
read succeeds it returns a salt of exactly 16 bytes and a nil error. -/
theorem generateSalt_spec (r : ReadOutcome) :
    (∀ e, r.err = some e → generateSalt r = (none, some e)) ∧
    ((generateSalt r).2 ≠ none ↔ r.err ≠ none) ∧
    (r.err = none →
      ∃ salt, generateSalt r = (some salt, none) ∧ salt.length = 16) := by
  refine ⟨fun e h => generateSalt_failed r e h, ?_, ?_⟩
  · cases h : r.err with
    | none => simp [generateSalt_ok r h]
    | some e => simp [generateSalt_failed r e h]
  · intro h
    exact ⟨_, generateSalt_ok r h, by rw [writeInto_length]; simp [makeBytes, saltLength]⟩

/-- C7: for every db, username and password, when salt generation fails,
`RegisterUser` returns a non-nil error and leaves db (and the pepper) exactly as
they were before the call. -/
theorem register_atomic_on_entropy_failure (idKey : KDF) (g : Globals) (r : ReadOutcome)
    (username password : GoString) (h : (generateSalt r).2 ≠ none) :
    (RegisterUser idKey g r username password).2 ≠ none ∧
      (RegisterUser idKey g r username password).1.db = g.db ∧
      (RegisterUser idKey g r username password).1 = g := by
  cases hr : r.err with
  | none => simp [generateSalt_ok r hr] at h
  | some e => simp [RegisterUser_failed idKey g r username password e hr]

theorem register_atomic_on_entropy_failure_witness :
    (generateSalt failedRead).2 ≠ none ∧
      (RegisterUser sampleKDF initGlobals failedRead nameA secret).2 ≠ none ∧
      (RegisterUser sampleKDF initGlobals failedRead nameA secret).1.db = initGlobals.db ∧
      (RegisterUser sampleKDF initGlobals failedRead nameA secret).1 = initGlobals :=
  ⟨by decide,
    register_atomic_on_entropy_failure sampleKDF initGlobals failedRead nameA secret (by decide)⟩

/-- C8: when `argon2.IDKey` returns `keyLen` bytes, every record of every db reached
from the empty db by a sequence of `RegisterUser` and `AuthenticateUser` calls has a
Salt of exactly 16 bytes and a PasswordHash of exactly 32 bytes. -/
theorem stored_lengths_fixed (idKey : KDF)
    (hlen : ∀ p s t m th k, (idKey p s t m th k).length = k)
    (pep : GoString) (calls : List Call) :
    ∀ e ∈ (run idKey ⟨pep, []⟩ calls).db,
      e.2.Salt.length = 16 ∧ e.2.PasswordHash.length = 32 :=
  run_lengths idKey hlen ⟨pep, []⟩ calls (fun e he => by simp at he)

theorem stored_lengths_fixed_witness :
    (∀ p s t m th k, (sampleKDF p s t m th k).length = k) ∧
      (run sampleKDF ⟨pepper, []⟩ sampleCalls).db.length = 2 ∧
      ∀ e ∈ (run sampleKDF ⟨pepper, []⟩ sampleCalls).db,
        e.2.Salt.length = 16 ∧ e.2.PasswordHash.length = 32 :=
  ⟨sampleKDF_length, by decide,
    stored_lengths_fixed sampleKDF sampleKDF_length pepper sampleCalls⟩

/-- C9 as stated fails: db holds a record for `a`, the read of the random source
succeeds, and `RegisterUser` for `a` returns a nil error. -/
theorem duplicate_registration_succeeds :
    mapGet afterFirstRegistration.db nameA = some firstRecord ∧
      (RegisterUser sampleKDF afterFirstRegistration (okRead 9) nameA wrong).2 = none := by
  decide

/-- C9, amended: for every db that already holds a record for username,
`RegisterUser(username, password)` reports no duplicate user: it returns nil
exactly when salt generation succeeds, and the only error it ever returns is the
failure of salt generation, wrapped as `failed to generate salt: ...`. -/
theorem register_existing_user_no_duplicate_error (idKey : KDF) (g : Globals)
    (r : ReadOutcome) (username password : GoString) (old : User)
    (_hold : mapGet g.db username = some old) :
    ((RegisterUser idKey g r username password).2 = none ↔ (generateSalt r).2 = none) ∧
      ∀ e, (RegisterUser idKey g r username password).2 = some e →
        ∃ cause, (generateSalt r).2 = some cause ∧
          e = GoError.wrap "failed to generate salt: " cause := by
  refine ⟨?_, ?_⟩
  · cases hr : r.err with
    | none =>
      simp [RegisterUser_ok idKey g r username password hr, generateSalt_ok r hr]
    | some err =>
      simp [RegisterUser_failed idKey g r username password err hr,
        generateSalt_failed r err hr]
  · intro e he
    cases hr : r.err with
    | none =>
      rw [RegisterUser_ok idKey g r username password hr] at he
      cases he
    | some err =>
      rw [RegisterUser_failed idKey g r username password err hr] at he
      refine ⟨err, by rw [generateSalt_failed r err hr], ?_⟩
      cases he
      rfl

theorem register_existing_user_no_duplicate_error_witness :
    mapGet afterFirstRegistration.db nameA = some firstRecord ∧
      (RegisterUser sampleKDF afterFirstRegistration (okRead 9) nameA wrong).2 = none ∧
      (RegisterUser sampleKDF afterFirstRegistration failedRead nameA wrong).2
        = some (GoError.wrap "failed to generate salt: "
            (GoError.plain "entropy source unavailable")) ∧
      (((RegisterUser sampleKDF afterFirstRegistration (okRead 9) nameA wrong).2 = none
          ↔ (generateSalt (okRead 9)).2 = none) ∧
        ∀ e, (RegisterUser sampleKDF afterFirstRegistration (okRead 9) nameA wrong).2 = some e →
          ∃ cause, (generateSalt (okRead 9)).2 = some cause ∧
            e = GoError.wrap "failed to generate salt: " cause) :=
  ⟨by decide, by decide, by decide,
    register_existing_user_no_duplicate_error sampleKDF afterFirstRegistration (okRead 9)
      nameA wrong firstRecord (by decide)⟩

/-- C10 fails on the code: after the four successful registrations `a`, `b`, `a`,
`c` from the empty db, the records of the different usernames `a` and `c` both
have ID 3. -/
theorem reRegistration_id_collision :
    nameA ≠ nameC ∧
      (∀ c ∈ reRegistrationCalls, ∃ r u p, c = Call.register r u p ∧ r.err = none) ∧
      (mapGet (run sampleKDF initGlobals reRegistrationCalls).db nameA).map User.ID = some 3 ∧
      (mapGet (run sampleKDF initGlobals reRegistrationCalls).db nameC).map User.ID = some 3 := by
  refine ⟨by decide, ?_, by decide, by decide⟩
  intro c hc
  simp only [reRegistrationCalls, List.mem_cons, List.mem_singleton, List.not_mem_nil,
    or_false] at hc
  rcases hc with h | h | h | h <;> exact ⟨_, _, _, h, rfl⟩

end Argon2Demo
